import Mathlib

/-!
# Verification of the uHDR scheduling and execution layer

This file gives a shallow embedding, in Lean 4, of the parts of the
uHDR repository (`src/guiQt/thread.py`, `src/hdrCore/image.py`) that the
specification's claims are about, together with theorems settling each
claim.

Conventions of the embedding:
* Python non-negative integers are `Nat`; Python `dict` (insertion
  ordered) is an association list `List (Nat × Nat)` updated in place.
* Fallible Python operations (`list[i]` raising `IndexError`, numpy
  broadcast failures raising `ValueError`, division by zero) return
  `Except PyErr`.
* `numpy` pixel data `colorData` of shape `(H, W, 3)` is modelled as a
  list of `H` rows, each a list of `W` opaque pixels (`Nat`); the colour
  channel dimension plays no role in any claim and is absorbed into the
  pixel value.
* The threading classes of `guiQt/thread.py` are modelled as explicit
  transition systems: each Python statement of a worker's `run` method is
  one step, and calls arriving from the GUI thread are atomic events
  (the GUI thread is a single thread; none of the claims depends on
  interleaving inside one GUI-side call).
-/

namespace UHDR

/-- Errors raised by the Python constructs used in the embedded code. -/
inductive PyErr
  | indexError
  | valueError
  | zeroDivisionError
deriving DecidableEq, Repr

instance {ε α : Type} [DecidableEq ε] [DecidableEq α] : DecidableEq (Except ε α) :=
  fun a b =>
    match a, b with
    | Except.ok x, Except.ok y =>
        if h : x = y then isTrue (by rw [h]) else isFalse (by simp [h])
    | Except.error x, Except.error y =>
        if h : x = y then isTrue (by rw [h]) else isFalse (by simp [h])
    | Except.ok _, Except.error _ => isFalse (by simp)
    | Except.error _, Except.ok _ => isFalse (by simp)

/-- Python list subscription `l[i]` for a non-negative index `i`:
raises `IndexError` when `i` is out of range. -/
def pyIndex (l : List α) (i : Nat) : Except PyErr α :=
  match l[i]? with
  | some x => Except.ok x
  | none => Except.error PyErr.indexError

/-- Python `l[-1]`: the last element, raising `IndexError` on an empty
list. -/
def pyLast (l : List α) : Except PyErr α :=
  match l.getLast? with
  | some x => Except.ok x
  | none => Except.error PyErr.indexError

/-- Python slice `l[a:b]` for `0 ≤ a, b`: clamps, never raises. -/
def pySlice (l : List α) (a b : Nat) : List α :=
  (l.drop a).take (b - a)

-- ---------------------------------------------------------------------------
-- Image (src/hdrCore/image.py)
-- ---------------------------------------------------------------------------

/-- Embeds `hdrCore.image.Image`.  Only the pixel data `colorData`
matters for the claims; the bookkeeping attributes (`path`, `name`,
`type`, `linear`, `colorSpace`, `scalingFactor`, `metadata`) are
deep-copied verbatim by `split` and `merge` and are dropped from the
model. -/
structure Image where
  colorData : List (List Nat)
deriving DecidableEq, Repr

/-- `shape[0]` of the colour data: the image height. -/
def Image.height (img : Image) : Nat := img.colorData.length

/-- `shape[1]` of the colour data: the image width (numpy arrays are
rectangular, so the first row's length is the width). -/
def Image.width (img : Image) : Nat := (img.colorData.headD []).length

/-- numpy 2-D slice `data[a:b, c:d, :]` (clamping, never raising). -/
def slice2d (data : List (List Nat)) (a b c d : Nat) : List (List Nat) :=
  (pySlice data a b).map (fun row => pySlice row c d)

/-- Embeds `Image.split` (image.py lines 640-670), statement by
statement, including the source's use of `range(widthSegment)` in the
`heightLimit` comprehension (line 657) and the `heightLimit[line+1]`
subscription that can raise `IndexError`.  A zero segment count raises
`ZeroDivisionError` at the `//` of the limit comprehensions. -/
def Image.split (self : Image) (widthSegment heightSegment : Nat) :
    Except PyErr (List (List Image)) := do
  let imageHeight := self.height
  let imageWidth := self.width
  if widthSegment = 0 ∨ heightSegment = 0 then
    throw PyErr.zeroDivisionError
  let widthLimit :=
    ((List.range widthSegment).map (fun i => i * (imageWidth / widthSegment))) ++ [imageWidth]
  let heightLimit :=
    ((List.range widthSegment).map (fun i => i * (imageHeight / heightSegment))) ++ [imageHeight]
  (List.range heightSegment).mapM (fun line => do
    let yA ← pyIndex heightLimit line
    let yB ← pyIndex heightLimit (line + 1)
    (List.range widthSegment).mapM (fun col => do
      let xA ← pyIndex widthLimit col
      let xB ← pyIndex widthLimit (col + 1)
      pure (Image.mk (slice2d self.colorData yA yB xA xB))))

/-- numpy region assignment of one row: `row[x : x + src.length] = src`,
assuming the bounds check has already been done. -/
def writeRow (row : List Nat) (x : Nat) (src : List Nat) : List Nat :=
  (row.take x) ++ src ++ (row.drop (x + src.length))

/-- numpy region assignment `data[y:y+h, x:x+w, :] = img` where
`(h, w)` is `img`'s shape: raises `ValueError` (shape mismatch on
broadcast) when the clamped destination region is smaller than the
source. -/
def write2d (data : List (List Nat)) (y x : Nat) (img : Image) :
    Except PyErr (List (List Nat)) :=
  if y + img.height ≤ data.length ∧ x + img.width ≤ (data.headD []).length then
    Except.ok (data.mapIdx (fun r row =>
      if y ≤ r ∧ r < y + img.height then
        writeRow row x ((img.colorData.getD (r - y) []).take img.width)
      else row))
  else Except.error PyErr.valueError

/-- One line of the merge paste loop (image.py lines 693-696): pastes
the images of `line` left to right starting at row `y`, threading the
`x` offset. -/
def mergeLine (line : List Image) (y : Nat) (data : List (List Nat)) :
    Except PyErr (List (List Nat)) := do
  let r ← line.foldlM (fun (acc : Nat × List (List Nat)) img => do
    let d ← write2d acc.2 y acc.1 img
    pure (acc.1 + img.width, d)) ((0 : Nat), data)
  pure r.2

/-- Embeds `Image.merge` (image.py lines 672-698): total width is the
sum of the first line's tile widths, total height the sum over lines of
each line's *first* tile's height (`imgList[0].shape[0]` under the
shadowing lambda parameter); a zero-filled canvas is allocated and every
tile is pasted at its running offset, advancing `y` by the *last* tile's
height of each line.  Empty outer or inner lists raise `IndexError`
exactly where the Python subscriptions do. -/
def Image.merge (imgList : List (List Image)) : Except PyErr Image := do
  let firstLine ← pyIndex imgList 0
  let totalWidth := (firstLine.map (fun img => img.width)).foldl (· + ·) 0
  let heights ← imgList.mapM (fun line => do
    let h ← pyIndex line 0
    pure h.height)
  let totalHeight := heights.foldl (· + ·) 0
  let cData0 := List.replicate totalHeight (List.replicate totalWidth 0)
  let r ← imgList.foldlM (fun (acc : Nat × List (List Nat)) line => do
    let d ← mergeLine line acc.1 acc.2
    let lastImg ← pyLast line
    pure (acc.1 + lastImg.height, d)) ((0 : Nat), cData0)
  pure (Image.mk r.2)

-- ---------------------------------------------------------------------------
-- RequestCompute / RunCompute (src/guiQt/thread.py lines 62-193)
-- ---------------------------------------------------------------------------

/-- Python `dict` update `d[k] = v` on an insertion-ordered association
list (keys are unique): overwrites in place when the key exists,
appends otherwise. -/
def dictSet {β : Type} : List (Nat × β) → Nat → β → List (Nat × β)
  | [], k, v => [(k, v)]
  | (a, b) :: ds, k, v =>
      if a = k then (k, v) :: ds else (a, b) :: dictSet ds k v

/-- Python `dict` read `d[k]` / `d.get(k)` on the association list. -/
def dictGet {β : Type} : List (Nat × β) → Nat → Option β
  | [], _ => none
  | (a, b) :: ds, k => if a = k then some b else dictGet ds k

/-- `for k in requestDict.keys(): processpipe.setParameters(k, requestDict[k])`
(thread.py line 180): applies every queued entry to the pipe's
parameter store, in the dict's insertion order. -/
def applyAll (req pipe : List (Nat × Nat)) : List (Nat × Nat) :=
  req.foldl (fun acc kv => dictSet acc kv.1 kv.2) pipe

/-- Program counter of one `RunCompute` worker (thread.py lines
171-193 with the `cpp = True` branch, and `endCompute`, lines 134-146).
Each constructor names the statement the task executes next. -/
inductive TaskPC
  /-- about to execute line 179, `self.parent.readyToRun = False`
  (the task has been submitted with `pool.start` but not yet begun). -/
  | pcSetBusy
  /-- about to execute line 180, applying `requestDict` to the pipe. -/
  | pcApply
  /-- inside lines 183-185: executing the pipeline computation. -/
  | pcCompute
  /-- about to execute line 186, `self.parent.readyToRun = True`. -/
  | pcSetReady
  /-- about to execute line 187, `self.parent.endCompute()` (image
  delivery, then the `waitingUpdate` restart check of lines 144-146,
  taken as one step). -/
  | pcEnd
  /-- `run` has returned. -/
  | pcDone
deriving DecidableEq, Repr

/-- One `RunCompute` task: its program counter, and — for stating the
coalescing claims — the snapshot of `requestDict` it read at its apply
step (line 180), `none` until that step runs. -/
structure Task where
  pc : TaskPC
  applied : Option (List (Nat × Nat))
deriving DecidableEq, Repr

/-- A freshly constructed `RunCompute(self)` handed to `pool.start`. -/
def Task.new : Task := ⟨TaskPC.pcSetBusy, none⟩

/-- State of one `RequestCompute` instance together with every
`RunCompute` task ever submitted for it (tasks are never removed;
finished tasks stay at `pcDone`, so `tasks.length` counts dispatches).
`pipeParams` is the parameter store of the shared process-pipe as
updated by `setParameters`. -/
structure RCState where
  readyToRun : Bool
  waitingUpdate : Bool
  requestDict : List (Nat × Nat)
  pipeParams : List (Nat × Nat)
  tasks : List Task
deriving DecidableEq, Repr

/-- `RequestCompute.__init__` (thread.py lines 87-102). -/
def RCState.initState : RCState := ⟨true, false, [], [], []⟩

/-- `RequestCompute.requestCompute(id, params)` (thread.py lines
113-132), one atomic GUI-thread event: store the params, then either
submit a new `RunCompute` (if `readyToRun`) or set `waitingUpdate`. -/
def requestCompute (s : RCState) (id params : Nat) : RCState :=
  let s1 := { s with requestDict := dictSet s.requestDict id params }
  if s1.readyToRun then
    { s1 with tasks := s1.tasks ++ [Task.new] }
  else
    { s1 with waitingUpdate := true }

/-- One statement of task `i`'s `RunCompute.run` (thread.py lines
179-187) or of the `endCompute` it calls (lines 142-146).  `none` when
`i` names no task or the task has finished.  The restart branch of
`endCompute` (lines 144-146, `pool.start` then `waitingUpdate = False`)
is one step. -/
def taskStep (s : RCState) (i : Nat) : Option RCState :=
  match s.tasks[i]? with
  | none => none
  | some t =>
    match t.pc with
    | TaskPC.pcSetBusy =>
        some { s with readyToRun := false,
                      tasks := s.tasks.set i { t with pc := TaskPC.pcApply } }
    | TaskPC.pcApply =>
        some { s with pipeParams := applyAll s.requestDict s.pipeParams,
                      tasks := s.tasks.set i
                        { t with pc := TaskPC.pcCompute, applied := some s.requestDict } }
    | TaskPC.pcCompute =>
        some { s with tasks := s.tasks.set i { t with pc := TaskPC.pcSetReady } }
    | TaskPC.pcSetReady =>
        some { s with readyToRun := true,
                      tasks := s.tasks.set i { t with pc := TaskPC.pcEnd } }
    | TaskPC.pcEnd =>
        if s.waitingUpdate then
          some { s with waitingUpdate := false,
                        tasks := (s.tasks.set i { t with pc := TaskPC.pcDone }) ++ [Task.new] }
        else
          some { s with tasks := s.tasks.set i { t with pc := TaskPC.pcDone } }
    | TaskPC.pcDone => none

/-- An event of the interleaved execution: a GUI-thread
`requestCompute(id, params)` call, or one statement of worker task `i`. -/
inductive Event
  | req (id params : Nat)
  | tstep (i : Nat)
deriving DecidableEq, Repr

/-- Executes one event; `none` when a `tstep` is not enabled. -/
def stepE (s : RCState) : Event → Option RCState
  | Event.req id params => some (requestCompute s id params)
  | Event.tstep i => taskStep s i

/-- Runs a whole schedule of events from a state. -/
def execFrom (s : RCState) : List Event → Option RCState
  | [] => some s
  | e :: evs =>
    match stepE s e with
    | none => none
    | some s1 => execFrom s1 evs

/-- The states of one `RequestCompute` instance reachable under some
interleaving of GUI-thread calls and worker statements. -/
inductive Reachable : RCState → Prop
  | init : Reachable RCState.initState
  | step {s : RCState} {e : Event} {s1 : RCState} :
      Reachable s → stepE s e = some s1 → Reachable s1

/-- Number of tasks currently executing the pipeline computation
(inside thread.py lines 183-185). -/
def computingCount (s : RCState) : Nat :=
  (s.tasks.filter (fun t => t.pc = TaskPC.pcCompute)).length

-- ---------------------------------------------------------------------------
-- Amended scheduling discipline for the at-most-one-in-flight claim
-- ---------------------------------------------------------------------------

/-- The restricted scheduling discipline under which the amended
at-most-one-in-flight claim is proved: `pool.start` is immediately
followed by the started task's first statement, so dispatch atomically
takes the permit (`readyToRun = False`, thread.py line 179, fused with
the `pool.start` of line 129 / 145). -/
def dispatchA (s : RCState) : RCState :=
  { s with readyToRun := false, tasks := s.tasks ++ [⟨TaskPC.pcApply, none⟩] }

/-- `requestCompute` under the atomic-dispatch discipline. -/
def requestComputeA (s : RCState) (id params : Nat) : RCState :=
  let s1 := { s with requestDict := dictSet s.requestDict id params }
  if s1.readyToRun then dispatchA s1 else { s1 with waitingUpdate := true }

/-- Worker statements under the restricted discipline: the permit
release of line 186 and the `endCompute` restart check of lines 142-146
execute atomically (no event falls between them), and dispatch has
already taken the permit. -/
def taskStepA (s : RCState) (i : Nat) : Option RCState :=
  match s.tasks[i]? with
  | none => none
  | some t =>
    match t.pc with
    | TaskPC.pcApply =>
        some { s with pipeParams := applyAll s.requestDict s.pipeParams,
                      tasks := s.tasks.set i
                        { t with pc := TaskPC.pcCompute, applied := some s.requestDict } }
    | TaskPC.pcCompute =>
        let s1 := { s with readyToRun := true,
                           tasks := s.tasks.set i { t with pc := TaskPC.pcDone } }
        if s.waitingUpdate then some (dispatchA { s1 with waitingUpdate := false })
        else some s1
    | _ => none

/-- One event under the atomic-dispatch discipline. -/
def stepA (s : RCState) : Event → Option RCState
  | Event.req id params => some (requestComputeA s id params)
  | Event.tstep i => taskStepA s i

/-- States reachable under the atomic-dispatch discipline. -/
inductive ReachableA : RCState → Prop
  | init : ReachableA RCState.initState
  | step {s : RCState} {e : Event} {s1 : RCState} :
      ReachableA s → stepA s e = some s1 → ReachableA s1

/-- A task that currently holds the permit (applying parameters or
computing). -/
def Task.isActive (t : Task) : Bool :=
  decide (t.pc = TaskPC.pcApply ∨ t.pc = TaskPC.pcCompute)

/-- Number of in-flight (permit-holding) tasks. -/
def activeCount (s : RCState) : Nat :=
  s.tasks.countP Task.isActive

/-- The inductive invariant of the amended at-most-one-in-flight claim:
under the atomic-dispatch discipline the permit `readyToRun` counts the
in-flight tasks exactly. -/
def InvA (s : RCState) : Prop :=
  activeCount s = if s.readyToRun then 0 else 1

/-- Whether an event is a `requestCompute` call for stage `a`. -/
def isReqOn (a : Nat) : Event → Bool
  | Event.req id _ => id = a
  | Event.tstep _ => false

/-- Invariant behind the last-write-wins claim: the pending entry for
stage `a` is `v`, and every task dispatched at index `base` or later
that has taken its apply-step snapshot saw `v` for stage `a`. -/
def LWW (a v base : Nat) (s : RCState) : Prop :=
  dictGet s.requestDict a = some v ∧
  ∀ i : Nat, base ≤ i → ∀ t : Task, s.tasks[i]? = some t →
    ∀ d, t.applied = some d → dictGet d a = some v

-- ---------------------------------------------------------------------------
-- RequestLoadImage / RunLoadImage (src/guiQt/thread.py lines 197-303)
-- ---------------------------------------------------------------------------

/-- One gallery-load unit of work, the constructor arguments of
`RunLoadImage` (thread.py lines 272-286); filenames are coded as `Nat`. -/
structure LoadTask where
  minIdxInPage : Nat
  imgIdxInPage : Nat
  filename : Nat
deriving DecidableEq, Repr

/-- State of one `RequestLoadImage` coordinator: the `requestsDone`
dict and every `RunLoadImage` ever handed to `pool.start`, in order
(tasks are never removed, so `started` records all dispatches). -/
structure RLState where
  requestsDone : List (Nat × Bool)
  started : List LoadTask
deriving DecidableEq, Repr

/-- `RequestLoadImage.__init__` (thread.py lines 211-220). -/
def RLState.initState : RLState := ⟨[], []⟩

/-- `RequestLoadImage.requestLoad` (thread.py lines 222-232): mark the
slot not done and submit a `RunLoadImage`. -/
def requestLoad (s : RLState) (minIdxInPage imgIdxInPage filename : Nat) : RLState :=
  { requestsDone := dictSet s.requestsDone (minIdxInPage + imgIdxInPage) false,
    started := s.started ++ [⟨minIdxInPage, imgIdxInPage, filename⟩] }

/-- `RequestLoadImage.endLoadImage` (thread.py lines 234-254): on
success mark the slot done (the parent-model and view updates carry no
scheduler state); on `error = true` call `requestLoad` again with the
same arguments (line 254). -/
def endLoadImage (s : RLState) (error : Bool) (idx0 idx filename : Nat) : RLState :=
  if error then requestLoad s idx0 idx filename
  else { s with requestsDone := dictSet s.requestsDone (idx0 + idx) true }

/-- `RunLoadImage.run` (thread.py lines 288-303): `Image.read` and the
thumbnail pipeline either succeed or raise `IOError`/`ValueError`;
which one is decided by the oracle `readFails` on the filename.  Either
way `endLoadImage` is called with the matching `error` flag. -/
def runLoadImage (readFails : Nat → Bool) (s : RLState) (t : LoadTask) : RLState :=
  if readFails t.filename then
    endLoadImage s true t.minIdxInPage t.imgIdxInPage t.filename
  else
    endLoadImage s false t.minIdxInPage t.imgIdxInPage t.filename

-- ---------------------------------------------------------------------------
-- pCompute / pRun (src/guiQt/thread.py lines 307-443)
-- ---------------------------------------------------------------------------

/-- Modelled from the spec: the kind of a process node's `process`
object.  The dynamic type test
`isinstance(processpipe.processNodes[-1].process, hdrCore.processing.geometry)`
(thread.py line 356) distinguishes exactly the geometry stage;
`hdrCore/processing.py` is not under `src/`, so the stage taxonomy is
taken from spec §4.2/§9 (a trailing "geometry" kind versus every other
stage kind). -/
inductive PKind
  | geometry
  | other
deriving DecidableEq, Repr

/-- Modelled from the spec: one pipeline process node — a stage kind
plus opaque parameters (spec §2: "an ordered sequence of named,
parameterized stages"); `hdrCore.processing.ProcessNode` is not under
`src/`. -/
structure PNode where
  kind : PKind
  params : Nat
deriving DecidableEq, Repr

/-- Modelled from the spec: the `ProcessPipe` surface consumed by
`pCompute` — the ordered `processNodes` list over one input image, with
`getInputImage` / `setImage` (spec §6 contract); the class itself is
not under `src/`. -/
structure PPipe where
  processNodes : List PNode
  inputImage : Image
deriving DecidableEq, Repr

/-- Modelled from the spec: `pp.compute()` followed by
`pp.getImage(toneMap)` — the stages are applied to the input image in
their fixed pipeline order (spec §6: `compute` "(re)computes all
stages"); the per-stage pixel math is the abstract parameter
`applyNode`. -/
def PPipe.computeImage (applyNode : PNode → Image → Image) (pp : PPipe) : Image :=
  pp.processNodes.foldl (fun im n => applyNode n im) pp.inputImage

/-- Observable outcome of one tiled run, for stating the claims. -/
structure PComputeResult where
  /-- the pipeline object the caller passed in, as it stands after
  `pCompute.__init__` returned (line 360 assigns to its
  `processNodes`). -/
  callerPipe : PPipe
  /-- `self.geometryNode` (lines 350, 356-357). -/
  geometryNode : Option PNode
  /-- the deep-copied per-tile pipelines (lines 368-371), row-major. -/
  tilePipes : List PPipe
  /-- the image handed to `self.callBack` (line 399). -/
  callbackImage : Image
deriving DecidableEq, Repr

/-- Embeds one full tiled run: `pCompute.__init__` (thread.py lines
333-373), then every `pRun.run` (lines 434-443), then the final
`endCompute` merge, geometry step and callback (lines 393-399).  Tile
tasks only fill their own grid cell, so running them in row-major order
is observationally the order-independent barrier of the source.  An
error (`IndexError` from `processNodes[-1]` on an empty pipeline, or a
failure of `split`) aborts before any tile task is submitted and before
any callback fires. -/
def pComputeRun (applyNode : PNode → Image → Image) (processpipe : PPipe)
    (nbWidth nbHeight : Nat) : Except PyErr PComputeResult := do
  let input := processpipe.inputImage
  let lastNode ← pyLast processpipe.processNodes
  let geometryNode := if lastNode.kind = PKind.geometry then some lastNode else none
  let processpipe1 :=
    if lastNode.kind = PKind.geometry then
      { processpipe with processNodes := processpipe.processNodes.dropLast }
    else processpipe
  let splits ← input.split nbWidth nbHeight
  let tilePipes := splits.map (fun line =>
    line.map (fun sp => { processpipe1 with inputImage := sp }))
  let computed := splits.map (fun line =>
    line.map (fun sp =>
      PPipe.computeImage applyNode { processpipe1 with inputImage := sp }))
  let merged ← Image.merge computed
  let res :=
    match geometryNode with
    | some g => applyNode g merged
    | none => merged
  pure ⟨processpipe1, geometryNode, tilePipes.flatten, res⟩

/-- The grid of tile outputs obtained by computing every tile of
`grid` with a per-tile pipeline copy carrying the node list `nodes`. -/
def tileOutputs (applyNode : PNode → Image → Image) (nodes : List PNode)
    (grid : List (List Image)) : List (List Image) :=
  grid.map (fun line => line.map (fun sp => PPipe.computeImage applyNode ⟨nodes, sp⟩))

-- ---------------------------------------------------------------------------
-- Concrete schedules and states used by the claim theorems
-- ---------------------------------------------------------------------------

/-- Schedule refuting at-most-one-in-flight: two rapid `requestCompute`
calls arrive before the first submitted task has begun to run (so both
see `readyToRun = True`), then both tasks start and enter the pipeline
computation. -/
def traceC1 : List Event :=
  [Event.req 0 5, Event.req 0 6, Event.tstep 0, Event.tstep 0,
   Event.tstep 1, Event.tstep 1]

/-- The state `traceC1` reaches: both tasks are inside the pipeline
computation at once. -/
def sBadC1 : RCState :=
  ⟨false, false, [(0, 6)], [(0, 6)],
   [⟨TaskPC.pcCompute, some [(0, 6)]⟩, ⟨TaskPC.pcCompute, some [(0, 6)]⟩]⟩

/-- Schedule refuting the pending-set-clearing claim: one request is
dispatched and runs to completion, then a request for a different stage
arrives and its task reaches the apply step. -/
def traceC5 : List Event :=
  [Event.req 0 5, Event.tstep 0, Event.tstep 0, Event.tstep 0,
   Event.tstep 0, Event.tstep 0, Event.req 1 7, Event.tstep 1, Event.tstep 1]

/-- The state `traceC5` reaches: the entry `(0, 5)` applied by the
first (finished) task is still pending, and the second dispatched task
has re-applied it together with `(1, 7)`. -/
def sBadC5 : RCState :=
  ⟨false, false, [(0, 5), (1, 7)], [(0, 5), (1, 7)],
   [⟨TaskPC.pcDone, some [(0, 5)]⟩,
    ⟨TaskPC.pcCompute, some [(0, 5), (1, 7)]⟩]⟩

/-- Events used by the witness of the last-write-wins theorem, run from
the state after `requestCompute(0, 3); requestCompute(0, 5)`: the first
task runs to completion (a request for stage `1` arrives while it is
busy), its `endCompute` dispatches task `2`, which reaches its apply
step. -/
def evsC6 : List Event :=
  [Event.tstep 0, Event.req 1 9, Event.tstep 0, Event.tstep 0,
   Event.tstep 0, Event.tstep 0, Event.tstep 2, Event.tstep 2]

/-- The state `evsC6` reaches. -/
def sC6 : RCState :=
  ⟨false, false, [(0, 5), (1, 9)], [(0, 5), (1, 9)],
   [⟨TaskPC.pcDone, some [(0, 5), (1, 9)]⟩,
    ⟨TaskPC.pcSetBusy, none⟩,
    ⟨TaskPC.pcCompute, some [(0, 5), (1, 9)]⟩]⟩

/-- Schedule refuting idempotence of identical requests: the same
`(stageId, params)` request is issued twice from idle, the second while
the first task is running; the first task's `endCompute` then dispatches
a second task. -/
def traceC7 : List Event :=
  [Event.req 0 5, Event.tstep 0, Event.req 0 5, Event.tstep 0,
   Event.tstep 0, Event.tstep 0, Event.tstep 0]

/-- The state `traceC7` reaches: two tasks were handed to the pool. -/
def sBadC7 : RCState :=
  ⟨true, false, [(0, 5)], [(0, 5)],
   [⟨TaskPC.pcDone, some [(0, 5)]⟩, ⟨TaskPC.pcSetBusy, none⟩]⟩

/-- `traceC7` continued until the second task has taken its parameter
snapshot: both dispatched computations applied the same single value. -/
def traceC7full : List Event :=
  traceC7 ++ [Event.tstep 1, Event.tstep 1]

/-- The state `traceC7full` reaches. -/
def sC7full : RCState :=
  ⟨false, false, [(0, 5)], [(0, 5)],
   [⟨TaskPC.pcDone, some [(0, 5)]⟩, ⟨TaskPC.pcCompute, some [(0, 5)]⟩]⟩

/-- Schedule refuting the `waitingUpdate → ¬readyToRun` invariant: a
second request arrives while the task is busy (setting `waitingUpdate`),
and the task then executes line 186 (`readyToRun = True`) but has not
yet run `endCompute`. -/
def traceC8 : List Event :=
  [Event.req 0 5, Event.tstep 0, Event.req 0 6, Event.tstep 0,
   Event.tstep 0, Event.tstep 0]

/-- The state `traceC8` reaches: `readyToRun` and `waitingUpdate` both
hold. -/
def sBadC8 : RCState :=
  ⟨true, true, [(0, 6)], [(0, 6)], [⟨TaskPC.pcEnd, some [(0, 6)]⟩]⟩

/-- The state reached from `sBadC8` by the task's `endCompute` step:
`waitingUpdate` is cleared and a fresh task is dispatched. -/
def sC8next : RCState :=
  ⟨true, false, [(0, 6)], [(0, 6)],
   [⟨TaskPC.pcDone, some [(0, 6)]⟩, ⟨TaskPC.pcSetBusy, none⟩]⟩

/-- Concrete per-node semantics for the tiled-engine witnesses: node
`n` stacks a marker row `[n.params]` on top of the image. -/
def cApply3 (n : PNode) (im : Image) : Image :=
  Image.mk ([[n.params]] ++ im.colorData)

/-- A pipeline whose last process node is a geometry stage. -/
def cPipe3 : PPipe :=
  ⟨[⟨PKind.other, 1⟩, ⟨PKind.geometry, 2⟩], Image.mk [[3, 4], [5, 6]]⟩

/-- The result of the tiled run of `cPipe3` on a `1 × 1` grid. -/
def cR3 : PComputeResult :=
  ⟨⟨[⟨PKind.other, 1⟩], Image.mk [[3, 4], [5, 6]]⟩,
   some ⟨PKind.geometry, 2⟩,
   [⟨[⟨PKind.other, 1⟩], Image.mk [[3, 4], [5, 6]]⟩],
   Image.mk [[2], [1], [3], [5]]⟩

/-- A one-stage pipeline whose only (hence last) node is geometry,
used to exhibit the mutation of the caller's pipeline. -/
def cPipe4 : PPipe := ⟨[⟨PKind.geometry, 2⟩], Image.mk [[1]]⟩

/-- The result of the tiled run of `cPipe4` (with identity node
semantics) on a `1 × 1` grid: the caller's pipeline has lost its only
node. -/
def cR4 : PComputeResult :=
  ⟨⟨[], Image.mk [[1]]⟩, some ⟨PKind.geometry, 2⟩,
   [⟨[], Image.mk [[1]]⟩], Image.mk [[1]]⟩

-- ---------------------------------------------------------------------------
-- Helper lemmas
-- ---------------------------------------------------------------------------

theorem execFrom_reachable {s s1 : RCState} {evs : List Event}
    (hs : Reachable s) (h : execFrom s evs = some s1) : Reachable s1 := by
  induction evs generalizing s with
  | nil =>
    simp only [execFrom, Option.some.injEq] at h
    exact h ▸ hs
  | cons e evs ih =>
    rw [execFrom] at h
    cases he : stepE s e with
    | none => rw [he] at h; exact absurd h (by simp)
    | some s2 => rw [he] at h; exact ih (Reachable.step hs he) h

theorem dictGet_dictSet_self {β : Type} (d : List (Nat × β)) (k : Nat) (v : β) :
    dictGet (dictSet d k v) k = some v := by
  induction d with
  | nil => simp [dictSet, dictGet]
  | cons kv ds ih =>
    obtain ⟨a, b⟩ := kv
    by_cases h : a = k
    · simp [dictSet, dictGet, h]
    · simp [dictSet, dictGet, h, ih]

theorem dictGet_dictSet_ne {β : Type} (d : List (Nat × β)) {k k' : Nat} (v : β)
    (h : k ≠ k') : dictGet (dictSet d k v) k' = dictGet d k' := by
  induction d with
  | nil => simp [dictSet, dictGet, h]
  | cons kv ds ih =>
    obtain ⟨a, b⟩ := kv
    by_cases ha : a = k
    · subst ha; simp [dictSet, dictGet, h]
    · by_cases ha' : a = k'
      · subst ha'; simp [dictSet, dictGet, ha, Ne.symm h]
      · simp [dictSet, dictGet, ha, ha', ih]

theorem getElem?_set_or {α : Type} {l : List α} {j : Nat} {t' : α} {i : Nat} {t : α}
    (h : (l.set j t')[i]? = some t) : (i = j ∧ t = t') ∨ l[i]? = some t := by
  induction l generalizing i j with
  | nil => simp [List.set] at h
  | cons a as ih =>
    cases j with
    | zero =>
      cases i with
      | zero => simp [List.set] at h; exact Or.inl ⟨rfl, h.symm⟩
      | succ i => right; simpa [List.set] using h
    | succ j =>
      cases i with
      | zero => right; simpa [List.set] using h
      | succ i =>
        have h1 : (as.set j t')[i]? = some t := by simpa [List.set] using h
        rcases ih h1 with h2 | h2
        · exact Or.inl ⟨by rw [h2.1], h2.2⟩
        · right; simpa using h2

theorem getElem?_append_or {α : Type} {l : List α} {x : α} {i : Nat} {t : α}
    (h : (l ++ [x])[i]? = some t) : l[i]? = some t ∨ t = x := by
  induction l generalizing i with
  | nil =>
    cases i with
    | zero => simp at h; exact Or.inr h.symm
    | succ i => simp at h
  | cons a as ih =>
    cases i with
    | zero => left; simpa using h
    | succ i =>
      have h1 : (as ++ [x])[i]? = some t := by simpa using h
      rcases ih h1 with h2 | h2
      · left; simpa using h2
      · exact Or.inr h2

theorem getElem?_set_self {α : Type} {l : List α} {i : Nat} {t t' : α}
    (h : l[i]? = some t) : (l.set i t')[i]? = some t' := by
  induction l generalizing i with
  | nil => simp at h
  | cons a as ih =>
    cases i with
    | zero => simp [List.set]
    | succ i =>
      have h1 : as[i]? = some t := by simpa using h
      simpa [List.set] using ih h1

theorem countP_set_balance {α : Type} (p : α → Bool) {l : List α} {i : Nat}
    (t : α) {t0 : α} (h : l[i]? = some t0) :
    (l.set i t).countP p + (if p t0 then 1 else 0)
      = l.countP p + (if p t then 1 else 0) := by
  induction l generalizing i with
  | nil => simp at h
  | cons a as ih =>
    cases i with
    | zero =>
      simp only [List.getElem?_cons_zero, Option.some.injEq] at h
      subst h
      simp only [List.set, List.countP_cons]
      omega
    | succ i =>
      have h1 : as[i]? = some t0 := by simpa using h
      have h2 := ih h1
      simp only [List.set, List.countP_cons]
      omega

theorem countP_pos_of_getElem? {α : Type} (p : α → Bool) {l : List α} {i : Nat}
    {t : α} (h : l[i]? = some t) (hp : p t = true) : 1 ≤ l.countP p := by
  induction l generalizing i with
  | nil => simp at h
  | cons a as ih =>
    cases i with
    | zero =>
      simp only [List.getElem?_cons_zero, Option.some.injEq] at h
      subst h
      simp [List.countP_cons, hp]
    | succ i =>
      have h1 : as[i]? = some t := by simpa using h
      have h2 := ih h1
      simp only [List.countP_cons]
      omega

-- ---------------------------------------------------------------------------
-- The single-permit invariant under the atomic-dispatch discipline
-- ---------------------------------------------------------------------------

theorem reachableA_invA {s : RCState} (h : ReachableA s) : InvA s := by
  induction h with
  | init => simp [InvA, activeCount, RCState.initState]
  | @step s e s1 _ hs ih =>
    cases e with
    | req id params =>
      simp only [stepA, Option.some.injEq] at hs
      subst hs
      unfold requestComputeA
      by_cases hr : s.readyToRun
      · simp only [InvA, activeCount, dispatchA, hr, if_pos, List.countP_append]
        simp only [InvA, activeCount, hr, if_pos] at ih
        simp [ih, List.countP_cons, Task.isActive]
      · simp only [InvA, activeCount, hr] at ih ⊢
        simpa [hr] using ih
    | tstep i =>
      simp only [stepA] at hs
      unfold taskStepA at hs
      cases hg : s.tasks[i]? with
      | none => simp [hg] at hs
      | some t =>
        cases hpc : t.pc with
        | pcApply =>
          simp only [hg, hpc, Option.some.injEq] at hs
          subst hs
          have hact : Task.isActive t = true := by
            simp [Task.isActive, hpc]
          have hbal := countP_set_balance Task.isActive ({ t with pc := TaskPC.pcCompute, applied := some s.requestDict }) hg
          have hpos := countP_pos_of_getElem? Task.isActive hg hact
          simp only [InvA, activeCount] at ih ⊢
          have hact2 : Task.isActive { t with pc := TaskPC.pcCompute, applied := some s.requestDict } = true := by
            simp [Task.isActive]
          rw [hact, hact2] at hbal
          simp only [ite_true] at hbal
          by_cases hr : s.readyToRun
          · rw [if_pos hr] at ih; rw [if_pos hr]; omega
          · rw [if_neg hr] at ih; rw [if_neg hr]; omega
        | pcCompute =>
          simp only [hg, hpc] at hs
          have hact : Task.isActive t = true := by
            simp [Task.isActive, hpc]
          have hbal := countP_set_balance Task.isActive ({ t with pc := TaskPC.pcDone }) hg
          have hpos := countP_pos_of_getElem? Task.isActive hg hact
          have hact2 : Task.isActive { t with pc := TaskPC.pcDone } = false := by
            simp [Task.isActive]
          rw [hact, hact2] at hbal
          simp only [ite_true, Bool.false_eq_true, ite_false] at hbal
          have hready : s.readyToRun = false := by
            by_contra hr
            simp only [Bool.not_eq_false] at hr
            simp only [InvA, activeCount, hr, if_pos] at ih
            omega
          simp only [InvA, activeCount, hready, Bool.false_eq_true,
            ite_false] at ih
          by_cases hw : s.waitingUpdate
          · simp only [hw, ite_true, Option.some.injEq] at hs
            subst hs
            simp only [InvA, activeCount, dispatchA, List.countP_append]
            simp only [List.countP_cons, List.countP_nil]
            have : Task.isActive ⟨TaskPC.pcApply, none⟩ = true := by
              simp [Task.isActive]
            simp only [this, ite_true, ite_false, Bool.false_eq_true]
            omega
          · simp only [hw, Bool.false_eq_true, ite_false, Option.some.injEq] at hs
            subst hs
            simp only [InvA, activeCount, ite_true]
            omega
        | pcSetBusy => simp [hg, hpc] at hs
        | pcSetReady => simp [hg, hpc] at hs
        | pcEnd => simp [hg, hpc] at hs
        | pcDone => simp [hg, hpc] at hs

-- ---------------------------------------------------------------------------
-- Last-write-wins machinery
-- ---------------------------------------------------------------------------

theorem requestCompute_requestDict (s : RCState) (id p : Nat) :
    (requestCompute s id p).requestDict = dictSet s.requestDict id p := by
  unfold requestCompute
  by_cases h : s.readyToRun <;> simp [h]

theorem taskStep_requestDict {s : RCState} {i : Nat} {s1 : RCState}
    (h : taskStep s i = some s1) : s1.requestDict = s.requestDict := by
  unfold taskStep at h
  cases hg : s.tasks[i]? with
  | none => simp [hg] at h
  | some t =>
    cases hpc : t.pc with
    | pcSetBusy => simp only [hg, hpc, Option.some.injEq] at h; rw [← h]
    | pcApply => simp only [hg, hpc, Option.some.injEq] at h; rw [← h]
    | pcCompute => simp only [hg, hpc, Option.some.injEq] at h; rw [← h]
    | pcSetReady => simp only [hg, hpc, Option.some.injEq] at h; rw [← h]
    | pcEnd =>
      simp only [hg, hpc] at h
      by_cases hw : s.waitingUpdate <;>
        simp only [hw, ite_true, Bool.false_eq_true, ite_false,
          Option.some.injEq] at h <;> rw [← h]
    | pcDone => simp [hg, hpc] at h

theorem lww_step {a v base : Nat} {s s1 : RCState} {e : Event}
    (hs : stepE s e = some s1) (hno : isReqOn a e = false)
    (h : LWW a v base s) : LWW a v base s1 := by
  cases e with
  | req id p =>
    have hid : id ≠ a := by simpa [isReqOn] using hno
    simp only [stepE, Option.some.injEq] at hs
    subst hs
    constructor
    · rw [requestCompute_requestDict, dictGet_dictSet_ne _ _ hid]
      exact h.1
    · intro i hi t ht d hd
      unfold requestCompute at ht
      by_cases hr : s.readyToRun
      · simp only [hr, ite_true] at ht
        rcases getElem?_append_or ht with h2 | h2
        · exact h.2 i hi t h2 d hd
        · rw [h2] at hd; exact absurd hd (by simp [Task.new])
      · simp only [hr, Bool.false_eq_true, ite_false] at ht
        exact h.2 i hi t ht d hd
  | tstep i0 =>
    simp only [stepE] at hs
    have hdict : s1.requestDict = s.requestDict := taskStep_requestDict hs
    unfold taskStep at hs
    cases hg : s.tasks[i0]? with
    | none => simp [hg] at hs
    | some t0 =>
      refine ⟨hdict ▸ h.1, ?_⟩
      intro i hi t ht d hd
      cases hpc : t0.pc with
      | pcSetBusy =>
        simp only [hg, hpc, Option.some.injEq] at hs
        subst hs
        rcases getElem?_set_or ht with ⟨hij, h2⟩ | h2
        · subst hij h2
          exact h.2 i hi t0 hg d (by simpa using hd)
        · exact h.2 i hi t h2 d hd
      | pcApply =>
        simp only [hg, hpc, Option.some.injEq] at hs
        subst hs
        rcases getElem?_set_or ht with ⟨hij, h2⟩ | h2
        · subst hij h2
          have hds : s.requestDict = d := by simpa using hd
          rw [← hds]; exact h.1
        · exact h.2 i hi t h2 d hd
      | pcCompute =>
        simp only [hg, hpc, Option.some.injEq] at hs
        subst hs
        rcases getElem?_set_or ht with ⟨hij, h2⟩ | h2
        · subst hij h2
          exact h.2 i hi t0 hg d (by simpa using hd)
        · exact h.2 i hi t h2 d hd
      | pcSetReady =>
        simp only [hg, hpc, Option.some.injEq] at hs
        subst hs
        rcases getElem?_set_or ht with ⟨hij, h2⟩ | h2
        · subst hij h2
          exact h.2 i hi t0 hg d (by simpa using hd)
        · exact h.2 i hi t h2 d hd
      | pcEnd =>
        simp only [hg, hpc] at hs
        by_cases hw : s.waitingUpdate
        · simp only [hw, ite_true, Option.some.injEq] at hs
          subst hs
          simp only at ht
          rcases getElem?_append_or ht with h2 | h2
          · rcases getElem?_set_or h2 with ⟨hij, h3⟩ | h3
            · subst hij h3
              exact h.2 i hi t0 hg d (by simpa using hd)
            · exact h.2 i hi t h3 d hd
          · rw [h2] at hd; exact absurd hd (by simp [Task.new])
        · simp only [hw, Bool.false_eq_true, ite_false, Option.some.injEq] at hs
          subst hs
          rcases getElem?_set_or ht with ⟨hij, h2⟩ | h2
          · subst hij h2
            exact h.2 i hi t0 hg d (by simpa using hd)
          · exact h.2 i hi t h2 d hd
      | pcDone => simp [hg, hpc] at hs

theorem lww_exec {a v base : Nat} {s0 s : RCState} {evs : List Event}
    (hexec : execFrom s0 evs = some s)
    (hno : evs.all (fun e => !(isReqOn a e)) = true)
    (h : LWW a v base s0) : LWW a v base s := by
  induction evs generalizing s0 with
  | nil =>
    simp only [execFrom, Option.some.injEq] at hexec
    exact hexec ▸ h
  | cons e evs ih =>
    simp only [List.all_cons, Bool.and_eq_true, Bool.not_eq_true'] at hno
    rw [execFrom] at hexec
    cases he : stepE s0 e with
    | none => rw [he] at hexec; exact absurd hexec (by simp)
    | some s2 =>
      rw [he] at hexec
      exact ih hexec (by simpa using hno.2) (lww_step he hno.1 h)

theorem computingCount_le_activeCount (s : RCState) :
    computingCount s ≤ activeCount s := by
  unfold computingCount activeCount
  rw [← List.countP_eq_length_filter]
  apply List.countP_mono_left
  intro t _ h
  simp only [decide_eq_true_eq] at h
  simp [Task.isActive, h]

theorem exceptBind_ok {ε α β : Type} (a : α) (f : α → Except ε β) :
    (Except.ok a >>= f) = f a := rfl

theorem exceptBind_error {ε α β : Type} (e : ε) (f : α → Except ε β) :
    ((Except.error e : Except ε α) >>= f) = Except.error e := rfl

/-- Case-split normal form of a tiled run on a non-empty pipeline. -/
theorem pComputeRun_eq (applyNode : PNode → Image → Image)
    (pipe : PPipe) (nbW nbH : Nat) (lastNode : PNode)
    (hlast : pipe.processNodes.getLast? = some lastNode) :
    pComputeRun applyNode pipe nbW nbH =
      (pipe.inputImage.split nbW nbH).bind (fun grid =>
        (Image.merge (tileOutputs applyNode
            (if lastNode.kind = PKind.geometry then
              pipe.processNodes.dropLast else pipe.processNodes) grid)).bind
          (fun merged => Except.ok
            ⟨⟨(if lastNode.kind = PKind.geometry then
                pipe.processNodes.dropLast else pipe.processNodes),
              pipe.inputImage⟩,
             (if lastNode.kind = PKind.geometry then some lastNode else none),
             (grid.map (fun line => line.map (fun sp =>
               (⟨(if lastNode.kind = PKind.geometry then
                   pipe.processNodes.dropLast else pipe.processNodes), sp⟩ :
                 PPipe)))).flatten,
             (if lastNode.kind = PKind.geometry then
               applyNode lastNode merged else merged)⟩)) := by
  unfold pComputeRun
  rw [show pyLast pipe.processNodes = Except.ok lastNode from by
    simp [pyLast, hlast]]
  by_cases hk : lastNode.kind = PKind.geometry
  · simp only [if_pos hk, exceptBind_ok]
    rfl
  · simp only [if_neg hk, exceptBind_ok]
    rfl

/-- Shape of a successful tiled run: the caller's pipeline comes back
with its node list stripped of a trailing geometry node, the tile
pipelines carry the stripped node list, and the callback image is the
merge of the tile outputs with the detached geometry node applied on
top exactly when it exists. -/
theorem pComputeRun_ok_shape (applyNode : PNode → Image → Image)
    (pipe : PPipe) (nbW nbH : Nat) (lastNode : PNode)
    (hlast : pipe.processNodes.getLast? = some lastNode)
    {r : PComputeResult} (hr : pComputeRun applyNode pipe nbW nbH = Except.ok r) :
    ∃ grid merged,
      pipe.inputImage.split nbW nbH = Except.ok grid ∧
      r.callerPipe = ⟨(if lastNode.kind = PKind.geometry then
          pipe.processNodes.dropLast else pipe.processNodes), pipe.inputImage⟩ ∧
      r.geometryNode = (if lastNode.kind = PKind.geometry then
          some lastNode else none) ∧
      r.tilePipes = (grid.map (fun line => line.map (fun sp =>
          (⟨(if lastNode.kind = PKind.geometry then
              pipe.processNodes.dropLast else pipe.processNodes), sp⟩ : PPipe)))).flatten ∧
      Image.merge (tileOutputs applyNode
          (if lastNode.kind = PKind.geometry then
            pipe.processNodes.dropLast else pipe.processNodes) grid)
        = Except.ok merged ∧
      r.callbackImage = (if lastNode.kind = PKind.geometry then
          applyNode lastNode merged else merged) := by
  rw [pComputeRun_eq applyNode pipe nbW nbH lastNode hlast] at hr
  cases hsp : pipe.inputImage.split nbW nbH with
  | error e => rw [hsp] at hr; simp [Except.bind] at hr
  | ok grid =>
    rw [hsp] at hr
    simp only [Except.bind] at hr
    cases hm : Image.merge (tileOutputs applyNode
        (if lastNode.kind = PKind.geometry then
          pipe.processNodes.dropLast else pipe.processNodes) grid) with
    | error e => rw [hm] at hr; simp at hr
    | ok merged =>
      rw [hm] at hr
      simp only [Except.ok.injEq] at hr
      exact ⟨grid, merged, rfl, by rw [← hr], by rw [← hr], by rw [← hr],
        hm, by rw [← hr]⟩

-- ---------------------------------------------------------------------------
-- Claim theorems
-- ---------------------------------------------------------------------------

/-- C1 (counterexample): the at-most-one-in-flight claim fails on the
code as written: `readyToRun` is cleared by the task itself (line 179),
not at dispatch (line 129), so two rapid `requestCompute` calls that
both arrive before the first submitted task begins dispatch two tasks,
and a state in which both are simultaneously executing the pipeline
computation is reachable. -/
theorem editScheduler_two_tasks_computing_cex :
    execFrom RCState.initState traceC1 = some sBadC1 ∧
    Reachable sBadC1 ∧ computingCount sBadC1 = 2 :=
  ⟨by decide,
   execFrom_reachable Reachable.init
     (show execFrom RCState.initState traceC1 = some sBadC1 by decide),
   by decide⟩

/-- C1 (amended): under the restricted scheduling discipline in which
`pool.start` is immediately followed by the started task's
`readyToRun = False` and a finishing task's permit release (line 186)
runs atomically with its `endCompute` restart check (lines 142-146), at
most one task of an `EditScheduler` executes pipeline computation at
any time. -/
theorem editScheduler_at_most_one_in_flight_atomic {s : RCState}
    (h : ReachableA s) : computingCount s ≤ 1 := by
  have h1 := reachableA_invA h
  have h2 := computingCount_le_activeCount s
  unfold InvA at h1
  by_cases hr : s.readyToRun
  · rw [if_pos hr] at h1; omega
  · rw [if_neg hr] at h1; omega

/-- Witness for the amended C1 theorem at the initial state. -/
theorem editScheduler_at_most_one_witness :
    computingCount RCState.initState ≤ 1 :=
  editScheduler_at_most_one_in_flight_atomic ReachableA.init

/-- C2: the split/merge round trip fails on the code: `Image.split`
builds `heightLimit` with `range(widthSegment)` (image.py line 657), so
a `1 × 2` split of a `2 × 1` image raises `IndexError` at
`heightLimit[line+1]`, and a `3 × 2` split of a `3 × 3` image silently
drops the last row band, so that merge returns a `2 × 3` image instead
of the original. -/
theorem split_merge_round_trip_fails :
    (Image.mk [[5], [7]]).split 1 2 = Except.error PyErr.indexError ∧
    ((Image.mk [[1, 2, 3], [4, 5, 6], [7, 8, 9]]).split 3 2).map Image.merge
      = Except.ok (Except.ok (Image.mk [[1, 2, 3], [4, 5, 6]])) ∧
    Image.mk [[1, 2, 3], [4, 5, 6]]
      ≠ Image.mk [[1, 2, 3], [4, 5, 6], [7, 8, 9]] :=
  ⟨by decide, by decide, by decide⟩

/-- C3: on every successful tiled run of a non-empty pipeline, when the
last process node is a geometry stage it is detached (stored in
`geometryNode`), every per-tile pipeline carries the node list without
it, and the callback image is the detached node applied exactly once to
the merge of the tile outputs; when the last node is not geometry,
nothing is detached, the tiles carry the full node list and no geometry
step follows the merge. -/
theorem pCompute_geometry_detached_applied_once
    (applyNode : PNode → Image → Image) (pipe : PPipe) (nbW nbH : Nat)
    (lastNode : PNode) (hlast : pipe.processNodes.getLast? = some lastNode)
    (r : PComputeResult)
    (hr : pComputeRun applyNode pipe nbW nbH = Except.ok r) :
    (lastNode.kind = PKind.geometry →
      r.geometryNode = some lastNode ∧
      (∀ tp ∈ r.tilePipes, tp.processNodes = pipe.processNodes.dropLast) ∧
      (∃ grid merged,
        pipe.inputImage.split nbW nbH = Except.ok grid ∧
        Image.merge (tileOutputs applyNode pipe.processNodes.dropLast grid)
          = Except.ok merged ∧
        r.callbackImage = applyNode lastNode merged)) ∧
    (lastNode.kind ≠ PKind.geometry →
      r.geometryNode = none ∧
      (∀ tp ∈ r.tilePipes, tp.processNodes = pipe.processNodes) ∧
      (∃ grid merged,
        pipe.inputImage.split nbW nbH = Except.ok grid ∧
        Image.merge (tileOutputs applyNode pipe.processNodes grid)
          = Except.ok merged ∧
        r.callbackImage = merged)) := by
  obtain ⟨grid, merged, hsp, hcp, hgn, htp, hm, hcb⟩ :=
    pComputeRun_ok_shape applyNode pipe nbW nbH lastNode hlast hr
  constructor
  · intro hk
    rw [if_pos hk] at hgn hm hcb htp
    refine ⟨hgn, ?_, grid, merged, hsp, hm, hcb⟩
    intro tp htp1
    rw [htp] at htp1
    simp only [List.mem_flatten, List.mem_map] at htp1
    obtain ⟨line, ⟨l0, _, hline⟩, htp2⟩ := htp1
    rw [← hline] at htp2
    simp only [List.mem_map] at htp2
    obtain ⟨sp, _, hsp2⟩ := htp2
    rw [← hsp2]
  · intro hk
    rw [if_neg hk] at hgn hm hcb htp
    refine ⟨hgn, ?_, grid, merged, hsp, hm, hcb⟩
    intro tp htp1
    rw [htp] at htp1
    simp only [List.mem_flatten, List.mem_map] at htp1
    obtain ⟨line, ⟨l0, _, hline⟩, htp2⟩ := htp1
    rw [← hline] at htp2
    simp only [List.mem_map] at htp2
    obtain ⟨sp, _, hsp2⟩ := htp2
    rw [← hsp2]

/-- Witness for the C3 theorem on a two-stage pipeline with a trailing
geometry node and a `1 × 1` grid. -/
theorem pCompute_geometry_detached_witness :
    cR3.geometryNode = some ⟨PKind.geometry, 2⟩ ∧
    ∀ tp ∈ cR3.tilePipes, tp.processNodes = cPipe3.processNodes.dropLast := by
  have h := pCompute_geometry_detached_applied_once cApply3 cPipe3 1 1
    ⟨PKind.geometry, 2⟩ (by decide) cR3 (by decide)
  exact ⟨(h.1 rfl).1, (h.1 rfl).2.1⟩

/-- C4 (counterexample): the caller's pipeline is not left unchanged:
`pCompute.__init__` assigns `processpipe.processNodes =
processpipe.processNodes[:-1]` (thread.py line 360) on the instance the
caller passed in, so after a run on a pipeline whose only node is
geometry, that instance has an empty node list. -/
theorem pCompute_mutates_caller_pipeline_cex :
    (pComputeRun (fun _ im => im) cPipe4 1 1).map
      (fun r => r.callerPipe.processNodes) = Except.ok [] ∧
    cPipe4.processNodes = [⟨PKind.geometry, 2⟩] :=
  ⟨by decide, by decide⟩

/-- C4 (amended): the per-tile pipelines and the detached geometry node
are deep copies, but the pipeline instance passed to `pCompute` is
itself mutated: after a successful run its `processNodes` list has lost
a trailing geometry node (it is unchanged when the last node is not
geometry), while its input image is untouched. -/
theorem pCompute_caller_pipeline_after_run
    (applyNode : PNode → Image → Image) (pipe : PPipe) (nbW nbH : Nat)
    (lastNode : PNode) (hlast : pipe.processNodes.getLast? = some lastNode)
    (r : PComputeResult)
    (hr : pComputeRun applyNode pipe nbW nbH = Except.ok r) :
    r.callerPipe.inputImage = pipe.inputImage ∧
    r.callerPipe.processNodes =
      (if lastNode.kind = PKind.geometry then
        pipe.processNodes.dropLast else pipe.processNodes) := by
  obtain ⟨grid, merged, hsp, hcp, _⟩ :=
    pComputeRun_ok_shape applyNode pipe nbW nbH lastNode hlast hr
  rw [hcp]
  exact ⟨rfl, rfl⟩

/-- Witness for the amended C4 theorem on a one-node geometry
pipeline. -/
theorem pCompute_caller_pipeline_witness :
    cR4.callerPipe.inputImage = cPipe4.inputImage ∧
    cR4.callerPipe.processNodes =
      (if (⟨PKind.geometry, 2⟩ : PNode).kind = PKind.geometry then
        cPipe4.processNodes.dropLast else cPipe4.processNodes) :=
  pCompute_caller_pipeline_after_run (fun _ im => im) cPipe4 1 1
    ⟨PKind.geometry, 2⟩ (by decide) cR4 (by decide)

/-- C5 (counterexample): the pending set is not cleared of the entries
that were applied: after a dispatched run for `(0, 5)` completes, the
entry is still in `requestDict`, and the next dispatch (for stage `1`)
re-applies it. -/
theorem requestDict_not_cleared_cex :
    execFrom RCState.initState traceC5 = some sBadC5 ∧
    sBadC5.requestDict ≠ [] ∧
    dictGet sBadC5.requestDict 0 = some 5 ∧
    sBadC5.tasks.map Task.applied
      = [some [(0, 5)], some [(0, 5), (1, 7)]] :=
  ⟨by decide, by decide, by decide, by decide⟩

/-- C5 (amended): a `requestCompute` call that finds `readyToRun` true
stores its parameters and submits exactly one new task; a task's apply
step applies the *entire* pending set current at that moment to the
pipe and snapshots it; but no task step ever removes entries from the
pending set (it is never cleared, so later dispatches re-apply the same
entries with unchanged values). -/
theorem dispatch_applies_entire_pending_set
    (s : RCState) (id p : Nat) (h : s.readyToRun = true) :
    ((requestCompute s id p).tasks = s.tasks ++ [Task.new] ∧
     (requestCompute s id p).requestDict = dictSet s.requestDict id p) ∧
    (∀ (s2 : RCState) (i : Nat) (s3 : RCState), taskStep s2 i = some s3 →
      s3.requestDict = s2.requestDict) ∧
    (∀ (s2 : RCState) (i : Nat) (t : Task), s2.tasks[i]? = some t →
      t.pc = TaskPC.pcApply →
      taskStep s2 i = some { s2 with
        pipeParams := applyAll s2.requestDict s2.pipeParams,
        tasks := s2.tasks.set i ⟨TaskPC.pcCompute, some s2.requestDict⟩ }) := by
  refine ⟨⟨?_, ?_⟩, ?_, ?_⟩
  · simp [requestCompute, h]
  · simp [requestCompute, h]
  · intro s2 i s3 h3
    exact taskStep_requestDict h3
  · intro s2 i t hg hpc
    unfold taskStep
    simp only [hg, hpc]

/-- Witness for the amended C5 theorem at the initial state. -/
theorem dispatch_applies_entire_pending_set_witness :
    ((requestCompute RCState.initState 0 5).tasks
        = RCState.initState.tasks ++ [Task.new] ∧
     (requestCompute RCState.initState 0 5).requestDict
        = dictSet RCState.initState.requestDict 0 5) ∧
    (∀ (s2 : RCState) (i : Nat) (s3 : RCState), taskStep s2 i = some s3 →
      s3.requestDict = s2.requestDict) ∧
    (∀ (s2 : RCState) (i : Nat) (t : Task), s2.tasks[i]? = some t →
      t.pc = TaskPC.pcApply →
      taskStep s2 i = some { s2 with
        pipeParams := applyAll s2.requestDict s2.pipeParams,
        tasks := s2.tasks.set i ⟨TaskPC.pcCompute, some s2.requestDict⟩ }) :=
  dispatch_applies_entire_pending_set RCState.initState 0 5 (by decide)

/-- C6: last write wins.  After `requestCompute(a, p1)` followed by
`requestCompute(a, p2)` — in particular while a prior task is running —
any task dispatched after the two calls that takes its parameter
snapshot during a period with no further request for stage `a` reads
`p2`, never `p1`, for stage `a`. -/
theorem last_write_wins
    (s0 : RCState) (a p1 p2 : Nat) (evs : List Event) (s : RCState)
    (i : Nat) (t : Task) (d : List (Nat × Nat))
    (hexec : execFrom (requestCompute (requestCompute s0 a p1) a p2) evs
      = some s)
    (hno : evs.all (fun e => !(isReqOn a e)) = true)
    (hi : (requestCompute (requestCompute s0 a p1) a p2).tasks.length ≤ i)
    (ht : s.tasks[i]? = some t)
    (hd : t.applied = some d) :
    dictGet d a = some p2 := by
  have hbase : LWW a p2
      ((requestCompute (requestCompute s0 a p1) a p2).tasks.length)
      (requestCompute (requestCompute s0 a p1) a p2) := by
    constructor
    · rw [requestCompute_requestDict, dictGet_dictSet_self]
    · intro j hj t' ht' d' hd'
      rw [List.getElem?_eq_none hj] at ht'
      exact absurd ht' (by simp)
  exact (lww_exec hexec hno hbase).2 i hi t ht d hd

/-- Witness for the C6 theorem: stage `0` receives `3` then `5`; the
task dispatched by the first run's `endCompute` applies `5`. -/
theorem last_write_wins_witness :
    dictGet [(0, 5), (1, 9)] 0 = some 5 :=
  last_write_wins RCState.initState 0 3 5 evsC6 sC6 2
    ⟨TaskPC.pcCompute, some [(0, 5), (1, 9)]⟩ [(0, 5), (1, 9)]
    (by decide) (by decide) (by decide) (by decide) (by decide)

/-- C7 (counterexample): issuing the same `(stageId, params)` request
twice in immediate succession from idle does not yield exactly one
dispatched computation: the first call dispatches a task, the second
(arriving while it runs) sets `waitingUpdate`, and the first task's
`endCompute` dispatches a second task, for two dispatches in total. -/
theorem duplicate_request_two_dispatches_cex :
    execFrom RCState.initState traceC7 = some sBadC7 ∧
    sBadC7.tasks.length = 2 :=
  ⟨by decide, by decide⟩

/-- C7 (amended): two identical requests in immediate succession yield
*two* dispatched computations (the second via the `waitingUpdate`
restart), both applying the same single-entry parameter set, so the
duplicate dispatch is observationally redundant but does happen. -/
theorem duplicate_request_coalesced_same_value :
    execFrom RCState.initState traceC7full = some sC7full ∧
    sC7full.tasks.length = 2 ∧
    sC7full.tasks.map Task.applied = [some [(0, 5)], some [(0, 5)]] :=
  ⟨by decide, by decide, by decide⟩

/-- C8 (counterexample): `waitingUpdate` can be true while `readyToRun`
is true: in the window after a finishing task executes line 186
(`readyToRun = True`) and before its `endCompute` restart check, both
flags hold in a reachable state. -/
theorem waiting_while_ready_cex :
    execFrom RCState.initState traceC8 = some sBadC8 ∧
    Reachable sBadC8 ∧
    sBadC8.waitingUpdate = true ∧ sBadC8.readyToRun = true :=
  ⟨by decide,
   execFrom_reachable Reachable.init
     (show execFrom RCState.initState traceC8 = some sBadC8 by decide),
   by decide, by decide⟩

/-- C8 (amended): `waitingUpdate` is set by a request only when
`readyToRun` is false (and is otherwise left as it was), and every task
step that takes `waitingUpdate` from true to false dispatches exactly
one fresh task; the original invariant fails only in the window between
a finishing task's `readyToRun = True` and its `endCompute`. -/
theorem waiting_cleared_only_with_dispatch :
    (∀ (s : RCState) (id p : Nat),
      (requestCompute s id p).waitingUpdate
        = (if s.readyToRun then s.waitingUpdate else true)) ∧
    (∀ (s : RCState) (i : Nat) (s1 : RCState), taskStep s i = some s1 →
      s.waitingUpdate = true → s1.waitingUpdate = false →
      s1.tasks.length = s.tasks.length + 1) := by
  constructor
  · intro s id p
    by_cases hr : s.readyToRun <;> simp [requestCompute, hr]
  · intro s i s1 h hw hw1
    unfold taskStep at h
    cases hg : s.tasks[i]? with
    | none => simp [hg] at h
    | some t =>
      cases hpc : t.pc with
      | pcSetBusy =>
        simp only [hg, hpc, Option.some.injEq] at h
        rw [← h] at hw1
        simp only at hw1
        rw [hw] at hw1
        exact absurd hw1 (by simp)
      | pcApply =>
        simp only [hg, hpc, Option.some.injEq] at h
        rw [← h] at hw1
        simp only at hw1
        rw [hw] at hw1
        exact absurd hw1 (by simp)
      | pcCompute =>
        simp only [hg, hpc, Option.some.injEq] at h
        rw [← h] at hw1
        simp only at hw1
        rw [hw] at hw1
        exact absurd hw1 (by simp)
      | pcSetReady =>
        simp only [hg, hpc, Option.some.injEq] at h
        rw [← h] at hw1
        simp only at hw1
        rw [hw] at hw1
        exact absurd hw1 (by simp)
      | pcEnd =>
        simp only [hg, hpc, hw, ite_true, Option.some.injEq] at h
        rw [← h]
        simp [List.length_append, List.length_set]
      | pcDone => simp [hg, hpc] at h

/-- Witness for the amended C8 theorem: part one at the initial state,
part two at the reachable both-flags state, whose `endCompute` step
clears `waitingUpdate` and dispatches a fresh task. -/
theorem waiting_cleared_only_with_dispatch_witness :
    (requestCompute RCState.initState 0 5).waitingUpdate
      = (if RCState.initState.readyToRun then
          RCState.initState.waitingUpdate else true) ∧
    sC8next.tasks.length = sBadC8.tasks.length + 1 :=
  ⟨waiting_cleared_only_with_dispatch.1 RCState.initState 0 5,
   waiting_cleared_only_with_dispatch.2 sBadC8 0 sC8next (by decide)
     (by decide) (by decide)⟩

/-- C9 (counterexample): a load completion reported with `error = true`
*does* cause the coordinator to dispatch the same load again:
`endLoadImage` calls `requestLoad` with identical arguments (thread.py
line 254), so after one failing run the pool has received the same unit
of work twice. -/
theorem load_error_redispatch_cex :
    (runLoadImage (fun _ => true) (requestLoad RLState.initState 0 0 9)
        ⟨0, 0, 9⟩).started
      = [⟨0, 0, 9⟩, ⟨0, 0, 9⟩] := by decide

/-- C9 (amended): `RequestLoadImage` retries failed loads
automatically and unboundedly: `endLoadImage` with `error = true` is
exactly a fresh `requestLoad` of the same `(idx0, idx, filename)`,
which submits one more task for that filename, while a successful
completion submits nothing. -/
theorem load_error_triggers_retry (s : RLState) (idx0 idx filename : Nat) :
    endLoadImage s true idx0 idx filename = requestLoad s idx0 idx filename ∧
    (requestLoad s idx0 idx filename).started
      = s.started ++ [⟨idx0, idx, filename⟩] ∧
    (endLoadImage s false idx0 idx filename).started = s.started := by
  refine ⟨by simp [endLoadImage], rfl, by simp [endLoadImage]⟩

/-- C10: constructing the tiled engine on a pipeline with an empty
`processNodes` list raises `IndexError` at `processNodes[-1]`
(thread.py line 356), before any tile task is submitted and before any
callback fires: the whole run is the error, with no result record. -/
theorem pCompute_empty_pipeline_index_error
    (applyNode : PNode → Image → Image) (pipe : PPipe) (nbW nbH : Nat)
    (h : pipe.processNodes = []) :
    pComputeRun applyNode pipe nbW nbH = Except.error PyErr.indexError := by
  unfold pComputeRun
  rw [h]
  rfl

/-- Witness for the C10 theorem on a concrete empty pipeline. -/
theorem pCompute_empty_pipeline_witness :
    pComputeRun (fun _ im => im) ⟨[], Image.mk [[1]]⟩ 2 3
      = Except.error PyErr.indexError :=
  pCompute_empty_pipeline_index_error (fun _ im => im) ⟨[], Image.mk [[1]]⟩
    2 3 rfl

end UHDR
